import Mathlib

/-!
Verification of the panda_factor quantitative-factor platform.

Shallow embedding of the operations the claims are about:

* `MarketDataReader._chunk_date_range`
  (panda_data/market_data/market_data_reader.py) — date-range chunking.
* `LogBatchManager.add_log` / `_flush_task_logs`
  (panda_common/handlers/log_handler.py) — buffered log flushing and its
  non-reentrant-lock behaviour.
* `get_task_logs` (panda_factor_server/services/user_factor_service.py) —
  incremental log reads.
* `run_factor` / `validate_factor_params` (same file) — job admission.
* `factor_analysis` (panda_factor/analysis/factor_analysis.py) — stage
  progression and result-bundle commit order.
* `create_factor` / `update_factor` / `check_factor_exists` — factor CRUD
  and the `(user_id, factor_name)` uniqueness invariant.
* `get_user_factor_list` — metric defaults and server-side sorting.
* `FactorReader.get_custom_factor` / `_print_formula_error` /
  `_print_class_error` (panda_data/factor/factor_reader.py) — on-demand
  factor computation error handling.

Dates that the Python code manipulates through `datetime` +
`timedelta(days=...)` are modelled as day ordinals (`Nat`); the
`YYYYMMDD` string representation is a bijection onto day ordinals and
plays no computational role in the chunking logic.
-/

namespace PandaFactor

/-! ## `MarketDataReader._chunk_date_range`

Source (market_data_reader.py, lines 214-248): convert `start_date` and
`end_date` to datetimes; if equal, return the single chunk; otherwise loop:
`chunk_end = min(chunk_start + timedelta(days=chunk_months*30 - 1), end)`,
append `(chunk_start, chunk_end)`, break once `chunk_end >= end`, else
continue from `chunk_end + 1 day`.  Dates are day ordinals here. -/

/-- The body of the `while chunk_start <= end` loop of `_chunk_date_range`.
`chunkDays = chunk_months * 30 - 1` is the offset added to the chunk start
(89 for the default `chunk_months = 3`). -/
def chunkLoop (chunkDays endD : Nat) (chunkStart : Nat) : List (Nat × Nat) :=
  if _h : chunkStart ≤ endD then
    let chunkEnd := min (chunkStart + chunkDays) endD
    if _h2 : endD ≤ chunkEnd then
      [(chunkStart, chunkEnd)]
    else
      (chunkStart, chunkEnd) :: chunkLoop chunkDays endD (chunkEnd + 1)
  else []
  termination_by endD - chunkStart
  decreasing_by
    simp only [not_le] at _h2
    omega

/-- Embedding of `MarketDataReader._chunk_date_range` on day ordinals.  `chunkMonths`
defaults to 3 as in the source; the per-chunk day offset is
`chunkMonths * 30 - 1`. -/
def chunk_date_range (startD endD : Nat) (chunkMonths : Nat := 3) :
    List (Nat × Nat) :=
  if startD = endD then [(startD, endD)]
  else chunkLoop (chunkMonths * 30 - 1) endD startD

/-- Invariant established by the chunking loop on `[cs, endD]`: the first
window starts at `cs`, the last ends at `endD`, windows are well-formed and
within bounds, adjacent (next start = previous end + 1), pairwise disjoint,
and they cover every day of `[cs, endD]`. -/
def ChunkInv (chunkDays endD cs : Nat) (L : List (Nat × Nat)) : Prop :=
  L.head? = some (cs, min (cs + chunkDays) endD) ∧
  (L.getLast?.map Prod.snd) = some endD ∧
  (∀ w ∈ L, cs ≤ w.1 ∧ w.1 ≤ w.2 ∧ w.2 ≤ endD ∧ w.2 ≤ w.1 + chunkDays) ∧
  L.Chain' (fun a b => b.1 = a.2 + 1) ∧
  L.Pairwise (fun a b => a.2 < b.1) ∧
  (∀ d, cs ≤ d → d ≤ endD → ∃ w ∈ L, w.1 ≤ d ∧ d ≤ w.2)

theorem chunkInv_single {chunkDays endD cs : Nat} (h : cs ≤ endD)
    (h2 : endD ≤ min (cs + chunkDays) endD) :
    ChunkInv chunkDays endD cs [(cs, min (cs + chunkDays) endD)] := by
  have hend : min (cs + chunkDays) endD = endD := le_antisymm (min_le_right _ _) h2
  refine ⟨rfl, by simp [hend], ?_, by simp, by simp, ?_⟩
  · intro w hw
    simp only [List.mem_singleton] at hw
    subst hw
    refine ⟨le_refl _, ?_, by simp [hend], min_le_left _ _⟩
    simpa [hend] using h
  · intro d hd1 hd2
    exact ⟨(cs, min (cs + chunkDays) endD), by simp, hd1, by simpa [hend] using hd2⟩

theorem chunkLoop_inv (chunkDays endD : Nat) :
    ∀ (n cs : Nat), endD - cs ≤ n → cs ≤ endD →
      ChunkInv chunkDays endD cs (chunkLoop chunkDays endD cs) := by
  intro n
  induction n with
  | zero =>
    intro cs hn h
    have hcs : cs = endD := by omega
    have h2 : endD ≤ min (cs + chunkDays) endD := by
      subst hcs; exact le_min (Nat.le_add_right _ _) (le_refl _)
    rw [chunkLoop, dif_pos h]
    simp only [dif_pos h2]
    exact chunkInv_single h h2
  | succ n ih =>
    intro cs hn h
    by_cases h2 : endD ≤ min (cs + chunkDays) endD
    · rw [chunkLoop, dif_pos h]
      simp only [dif_pos h2]
      exact chunkInv_single h h2
    · rw [chunkLoop, dif_pos h]
      simp only [dif_neg h2]
      have hlt : min (cs + chunkDays) endD < endD := by omega
      have hmin : min (cs + chunkDays) endD = cs + chunkDays := by omega
      set ce := min (cs + chunkDays) endD with hce
      have hce1 : ce + 1 ≤ endD := hlt
      have hrec := ih (ce + 1) (by omega) hce1
      obtain ⟨ihead, ilast, imem, ichain, ipair, icover⟩ := hrec
      have hne : chunkLoop chunkDays endD (ce + 1) ≠ [] := by
        intro hnil
        rw [hnil] at ihead
        simp at ihead
      obtain ⟨b, l', hbl⟩ : ∃ b l', chunkLoop chunkDays endD (ce + 1) = b :: l' := by
        cases hx : chunkLoop chunkDays endD (ce + 1) with
        | nil => exact absurd hx hne
        | cons b l' => exact ⟨b, l', rfl⟩
      refine ⟨rfl, ?_, ?_, ?_, ?_, ?_⟩
      · rw [hbl, List.getLast?_cons_cons, ← hbl]
        exact ilast
      · intro w hw
        rcases List.mem_cons.mp hw with hw | hw
        · subst hw
          exact ⟨le_refl _, by omega, le_of_lt hlt, min_le_left _ _⟩
        · have := imem w hw
          exact ⟨by omega, this.2.1, this.2.2.1, this.2.2.2⟩
      · rw [List.chain'_cons']
        refine ⟨?_, ichain⟩
        intro b hb
        have : (chunkLoop chunkDays endD (ce + 1)).head? = some b := hb
        rw [ihead] at this
        simp only [Option.some.injEq] at this
        subst this
        rfl
      · rw [List.pairwise_cons]
        refine ⟨?_, ipair⟩
        intro w hw
        have := imem w hw
        omega
      · intro d hd1 hd2
        by_cases hdc : d ≤ ce
        · exact ⟨(cs, ce), by simp, hd1, hdc⟩
        · obtain ⟨w, hw, hw1, hw2⟩ := icover d (by omega) hd2
          exact ⟨w, by simp [hw], hw1, hw2⟩

/-- C6: for every pair of day ordinals with `start ≤ end`,
`_chunk_date_range` (default three-month chunks) returns windows that are
adjacent (each start is the previous end plus one day), pairwise disjoint,
cover `[start, end]` exactly, each span at most 90 days (ends at most 89
days after their start, i.e. ≈ three months), with the last window
truncated at `end`; and `start == end` yields the single window
`(start, end)`. -/
theorem chunk_date_range_spec (startD endD : Nat) (h : startD ≤ endD) :
    ((chunk_date_range startD endD).head?.map Prod.fst = some startD) ∧
    ((chunk_date_range startD endD).getLast?.map Prod.snd = some endD) ∧
    (chunk_date_range startD endD).Chain' (fun a b => b.1 = a.2 + 1) ∧
    (chunk_date_range startD endD).Pairwise (fun a b => a.2 < b.1) ∧
    (∀ w ∈ chunk_date_range startD endD, w.1 ≤ w.2 ∧ w.2 ≤ w.1 + 89) ∧
    (∀ d, (startD ≤ d ∧ d ≤ endD) ↔
      ∃ w ∈ chunk_date_range startD endD, w.1 ≤ d ∧ d ≤ w.2) ∧
    (startD = endD → chunk_date_range startD endD = [(startD, endD)]) := by
  by_cases heq : startD = endD
  · subst heq
    refine ⟨by simp [chunk_date_range], by simp [chunk_date_range],
      by simp [chunk_date_range], by simp [chunk_date_range], ?_, ?_, ?_⟩
    · intro w hw
      simp only [chunk_date_range, if_true, List.mem_singleton, eq_self_iff_true] at hw
      subst hw
      exact ⟨le_refl _, by omega⟩
    · intro d
      constructor
      · intro ⟨hd1, hd2⟩
        exact ⟨(startD, startD), by simp [chunk_date_range], hd1, hd2⟩
      · intro ⟨w, hw, hw1, hw2⟩
        simp only [chunk_date_range, if_true, eq_self_iff_true] at hw
        rw [List.mem_singleton] at hw
        subst hw
        exact ⟨hw1, hw2⟩
    · intro _
      simp [chunk_date_range]
  · have hinv := chunkLoop_inv 89 endD (endD - startD) startD (le_refl _) h
    obtain ⟨ihead, ilast, imem, ichain, ipair, icover⟩ := hinv
    have hdef : chunk_date_range startD endD = chunkLoop 89 endD startD := by
      simp [chunk_date_range, heq]
    rw [hdef]
    refine ⟨by rw [ihead]; rfl, ilast, ichain, ipair, ?_, ?_, fun hc => absurd hc heq⟩
    · intro w hw
      have := imem w hw
      exact ⟨this.2.1, this.2.2.2⟩
    · intro d
      constructor
      · intro ⟨hd1, hd2⟩
        exact icover d hd1 hd2
      · intro ⟨w, hw, hw1, hw2⟩
        have := imem w hw
        exact ⟨le_trans this.1 hw1, le_trans hw2 this.2.2.1⟩

/-- Witness for `chunk_date_range_spec`: instantiated on the 200-day range
`[10, 210]` (so several chunks are produced). -/
theorem chunk_date_range_spec_witness :
    ((chunk_date_range 10 210).head?.map Prod.fst = some 10) ∧
    ((chunk_date_range 10 210).getLast?.map Prod.snd = some 210) ∧
    (chunk_date_range 10 210).Chain' (fun a b => b.1 = a.2 + 1) := by
  have h := chunk_date_range_spec 10 210 (by decide)
  exact ⟨h.1, h.2.1, h.2.2.1⟩

/-! ## `LogBatchManager` (panda_common/handlers/log_handler.py)

`LogBatchManager.__init__` sets `self.buffer_lock = threading.Lock()` — a
non-reentrant mutex — and `self.max_buffer_size = 50`.  `add_log`
(lines 224-235) runs its whole body inside `with self.buffer_lock:` and,
when the per-task queue reaches `max_buffer_size`, calls
`self._flush_task_logs(task_id)` while still holding the lock.
`_flush_task_logs` (lines 300-344) begins with `with self.buffer_lock:`
again.  Acquiring a held non-reentrant `threading.Lock` from the same
thread blocks forever; a blocked (never-returning) call is modelled as
`none`. -/

/-- One queued log entry of a task (the dict built by
`FactorAnalysisLogHandler.emit`). -/
structure LogEntry where
  message : String
  level : String
  timestamp : Nat
  stage : String
deriving DecidableEq, Repr

/-- State visible to `add_log`/`_flush_task_logs` for one task: its
in-memory queue (`self.log_buffer[task_id]`), the rows persisted in the
`factor_analysis_stage_logs` collection, and the mirrored
`last_log_message/time/level` fields of the task record. -/
structure BufState where
  buffer : List LogEntry
  persisted : List LogEntry
  lastLog : Option LogEntry
deriving DecidableEq, Repr

/-- Threshold `self.max_buffer_size` from `LogBatchManager.__init__`. -/
def max_buffer_size : Nat := 50

/-- Embedding of `LogBatchManager._flush_task_logs`.  The function re-acquires
`self.buffer_lock`; `callerHoldsLock` records whether the calling thread
already holds that (non-reentrant) lock, in which case the acquisition
blocks forever (`none`).  Otherwise the queued entries are appended to the
log collection in enqueue order and the task's `last_log_*` fields are set
from the newest entry (`logs_to_save[-1]`). -/
def flush_task_logs (callerHoldsLock : Bool) (st : BufState) :
    Option BufState :=
  if callerHoldsLock then none
  else if st.buffer.isEmpty then some st
  else some { buffer := [],
              persisted := st.persisted ++ st.buffer,
              lastLog := st.buffer.getLast? }

/-- Embedding of `LogBatchManager.add_log`: append the entry to the task's queue and,
once the queue has reached `max_buffer_size` entries, call
`_flush_task_logs` — still inside `with self.buffer_lock:`. -/
def add_log (st : BufState) (e : LogEntry) : Option BufState :=
  let buf := st.buffer ++ [e]
  if max_buffer_size ≤ buf.length then
    flush_task_logs true { st with buffer := buf }
  else
    some { st with buffer := buf }

/-- Sequential `add_log` calls for one task (each call returning before the
next starts); `none` once any call blocks. -/
def add_logs (st : BufState) (es : List LogEntry) : Option BufState :=
  es.foldl (fun acc e => acc.bind (fun s => add_log s e)) (some st)

/-- Concrete log entries used as inputs below. -/
def mkEntry (i : Nat) : LogEntry :=
  { message := "message " ++ toString i, level := "INFO", timestamp := i,
    stage := "default" }

/-- C4: starting from an empty buffer, 49 `add_log` calls persist no rows
(true in the code); but the 50th call, instead of flushing the 50 buffered
entries and updating `last_log_*`, blocks forever re-acquiring the
non-reentrant `buffer_lock` inside `_flush_task_logs` (modelled `none`):
no flush happens and the call never returns. -/
theorem add_log_threshold_deadlock :
    add_logs ⟨[], [], none⟩ ((List.range 49).map mkEntry) =
      some ⟨(List.range 49).map mkEntry, [], none⟩ ∧
    add_logs ⟨[], [], none⟩ ((List.range 50).map mkEntry) = none := by
  constructor
  · decide
  · decide

/-- C9: `add_log` does not terminate on every prior buffer state — the call
that brings a task's buffer to the 50-entry threshold deadlocks
(`_flush_task_logs` re-acquires the non-reentrant `buffer_lock` that
`add_log` already holds), modelled as `none`; below the threshold the call
returns normally. -/
theorem add_log_at_threshold_blocks (st : BufState) (e : LogEntry)
    (h : 49 ≤ st.buffer.length) :
    add_log st e = none := by
  have hlen : max_buffer_size ≤ (st.buffer ++ [e]).length := by
    simp [max_buffer_size, List.length_append]
    omega
  simp only [add_log]
  rw [if_pos hlen]
  simp [flush_task_logs]

/-- Witness for `add_log_at_threshold_blocks`: the 50th call on a buffer
holding 49 entries blocks. -/
theorem add_log_at_threshold_blocks_witness :
    add_log ⟨(List.range 49).map mkEntry, [], none⟩ (mkEntry 49) = none :=
  add_log_at_threshold_blocks ⟨(List.range 49).map mkEntry, [], none⟩
    (mkEntry 49) (by decide)

/-! ## `factor_analysis` stage progression (factor_analysis.py, lines
188-487; user_factor_service.py `run_factor_analysis`, lines 947-1031)

`factor_analysis` writes `process_status` to the task record before/after
each stage; any raised exception is caught once, `process_status = -1` is
written, and the exception is re-raised.  `run_factor_analysis` then writes
the task's lifecycle `status` (2 = succeeded, 3 = failed) and the mirrored
factor status.  `factor_list` always holds exactly one entry
(`[df_factor.columns[2]]`), so the per-factor loop executes once.  The
execution is modelled as the sequence of database writes it performs, with
an oracle `fail : Option FAStep` naming the first fallible step (if any)
that raises. -/

/-- Database writes observable from a task execution. -/
inductive Ev where
  /-- `mongo_update tasks {process_status: n}`. -/
  | proc (n : Int)
  /-- `factor_obj.inset_to_database(factor_id, task_id)` — the result
  bundle write into `factor_analysis_results`. -/
  | bundle
  /-- `mongo_update tasks {status: n}` (1 running, 2 succeeded, 3 failed). -/
  | taskStatus (n : Int)
  /-- `mongo_update user_factors {status: n}`. -/
  | factorStatus (n : Int)
deriving DecidableEq, Repr

/-- The fallible steps of `factor_analysis`, in source order. -/
inductive FAStep where
  | fetchK | cleanFactor | mergeData | lagReturns | grouping | backtest
  | persistResults
deriving DecidableEq, Repr

/-- The body of the `try:` block of `factor_analysis` as an interleaving of
unconditional `process_status` writes and fallible steps.  `.inl .bundle`
directly after `.inr .persistResults` records that the bundle write is the
effect of `inset_to_database` succeeding; `process_status = 8` is written
just before it, `9` just after the loop. -/
def faScript : List (Ev ⊕ FAStep) :=
  [Sum.inl (Ev.proc 2), Sum.inr FAStep.fetchK,
   Sum.inl (Ev.proc 3), Sum.inr FAStep.cleanFactor,
   Sum.inl (Ev.proc 4), Sum.inr FAStep.mergeData,
   Sum.inl (Ev.proc 5), Sum.inr FAStep.lagReturns,
   Sum.inl (Ev.proc 6), Sum.inr FAStep.grouping,
   Sum.inl (Ev.proc 7), Sum.inr FAStep.backtest,
   Sum.inl (Ev.proc 8), Sum.inr FAStep.persistResults, Sum.inl Ev.bundle,
   Sum.inl (Ev.proc 9)]

/-- Run a script: unconditional writes are emitted; the first step equal to
`fail` raises, which the single `except:` handler of `factor_analysis`
turns into a `process_status = -1` write (the exception is then
re-raised).  Returns the emitted writes and whether the body completed. -/
def runScript (fail : Option FAStep) : List (Ev ⊕ FAStep) → List Ev × Bool
  | [] => ([], true)
  | (Sum.inl e) :: rest =>
      let r := runScript fail rest
      (e :: r.1, r.2)
  | (Sum.inr s) :: rest =>
      if fail = some s then ([Ev.proc (-1)], false)
      else runScript fail rest

/-- The writes performed by `factor_analysis` (its first write,
`process_status = 1`, precedes the `try:` block). -/
def factor_analysis_trace (fail : Option FAStep) : List Ev × Bool :=
  let r := runScript fail faScript
  (Ev.proc 1 :: r.1, r.2)

/-- The writes performed by `run_factor_analysis` around
`factor_analysis`: on normal return it sets task `status = 2` and factor
status 2; on exception, task `status = 3` and factor status 3. -/
def run_factor_analysis_trace (fail : Option FAStep) : List Ev :=
  let r := factor_analysis_trace fail
  r.1 ++ (if r.2 then [Ev.taskStatus 2, Ev.factorStatus 2]
          else [Ev.taskStatus 3, Ev.factorStatus 3])

/-- The successive values written to `process_status`. -/
def procWrites (tr : List Ev) : List Int :=
  tr.filterMap (fun e => match e with | Ev.proc n => some n | _ => none)

/-- Scan a trace and check that no `taskStatus 2` write occurs before a
`bundle` write. -/
def succeededAfterBundle : List Ev → Bool
  | [] => true
  | Ev.bundle :: _ => true
  | Ev.taskStatus n :: rest =>
      if n = 2 then false else succeededAfterBundle rest
  | _ :: rest => succeededAfterBundle rest

theorem succeededAfterBundle_spec :
    ∀ (tr : List Ev), succeededAfterBundle tr = true →
      ∀ l₁ l₂, tr = l₁ ++ Ev.taskStatus 2 :: l₂ → Ev.bundle ∈ l₁ := by
  intro tr
  induction tr with
  | nil =>
    intro _ l₁ l₂ hsplit
    exact absurd hsplit (by simp)
  | cons e rest ih =>
    intro h l₁ l₂ hsplit
    cases l₁ with
    | nil =>
      simp only [List.nil_append, List.cons.injEq] at hsplit
      rw [hsplit.1] at h
      simp [succeededAfterBundle] at h
    | cons a l₁' =>
      simp only [List.cons_append, List.cons.injEq] at hsplit
      obtain ⟨he, hrest⟩ := hsplit
      subst he
      by_cases hb : e = Ev.bundle
      · simp [hb]
      · have h' : succeededAfterBundle rest = true := by
          cases e with
          | proc n => simpa [succeededAfterBundle] using h
          | bundle => exact absurd rfl hb
          | taskStatus n =>
            by_cases hn : n = 2
            · subst hn; simp [succeededAfterBundle] at h
            · simpa [succeededAfterBundle, hn] using h
          | factorStatus n => simpa [succeededAfterBundle] using h
        have := ih h' l₁' l₂ hrest
        simp [this]

/-- C3: for every execution of a task (any single fallible step possibly
raising), (a) on the success path `process_status` is written in strictly
increasing order 1,2,…,9 with no stage skipped, (b) `-1` is written iff
some step failed, and (c) the task lifecycle status `2` (succeeded) is
written only after the result bundle for the task has been persisted. -/
theorem factor_analysis_stage_order (fail : Option FAStep) :
    (fail = none →
      procWrites (run_factor_analysis_trace fail) =
        [1, 2, 3, 4, 5, 6, 7, 8, 9]) ∧
    ((-1 : Int) ∈ procWrites (run_factor_analysis_trace fail) ↔
      fail ≠ none) ∧
    (∀ l₁ l₂, run_factor_analysis_trace fail = l₁ ++ Ev.taskStatus 2 :: l₂ →
      Ev.bundle ∈ l₁) := by
  refine ⟨?_, ?_, ?_⟩
  · intro h
    subst h
    decide
  · cases fail with
    | none => decide
    | some s => cases s <;> decide
  · apply succeededAfterBundle_spec
    cases fail with
    | none => decide
    | some s => cases s <;> decide

/-- Witness for `factor_analysis_stage_order`: on the no-failure execution
the theorem yields the full 1..9 progression, and on a failure in the
grouping stage it yields the `-1` write. -/
theorem factor_analysis_stage_order_witness :
    procWrites (run_factor_analysis_trace none) =
      [1, 2, 3, 4, 5, 6, 7, 8, 9] ∧
    (-1 : Int) ∈ procWrites (run_factor_analysis_trace (some FAStep.grouping)) :=
  ⟨(factor_analysis_stage_order none).1 rfl,
   (factor_analysis_stage_order (some FAStep.grouping)).2.1.mpr (by simp)⟩

/-! ## `run_factor` admission (user_factor_service.py, lines 795-901) and
`validate_factor_params` (lines 676-752)

`run_factor` looks the factor up, **inserts the task record** (`status=1`,
line 854) and **updates the factor** (`status=1`, `current_task_id`,
lines 858-868), and only then calls `validate_factor_params` (line 871),
returning `ResultData.fail("400", error_msg)` if validation fails.  The
`MacroFactor.validate_factor` outcome is an oracle boolean `codeValid`. -/

/-- Evaluation parameters as converted to a `Params` object at the top of
`validate_factor_params`. -/
structure ParamsD where
  start_date : String
  end_date : String
  adjustment_cycle : Int
  stock_pool : String
  factor_direction : Bool
  group_number : Int
  include_st : Bool
  extreme_value_processing : String
deriving DecidableEq, Repr

/-- The `valid_adjustment_cycles` list of `validate_factor_params`. -/
def valid_adjustment_cycles : List Int := [1, 3, 5, 10, 20, 30]

/-- The `valid_stock_pools` list of `validate_factor_params`. -/
def valid_stock_pools : List String := ["000300", "000905", "000852", "000985"]

/-- The `valid_extreme_methods` list of `validate_factor_params`. -/
def valid_extreme_methods : List String := ["标准差", "std", "中位数", "median"]

/-- Embedding of `validate_factor_params`: the chain of checks of lines 693-747,
returning `(is_valid, error_msg)`.  Error messages abbreviate the source
messages. -/
def validate_factor_params (p : ParamsD) (codeValid : Bool) : Bool × String :=
  if ¬ valid_adjustment_cycles.contains p.adjustment_cycle then
    (false, "不支持的调仓周期")
  else if ¬ valid_stock_pools.contains p.stock_pool then
    (false, "不支持的股票池")
  else if ¬ (2 ≤ p.group_number ∧ p.group_number ≤ 20) then
    (false, "分组数量必须在2到20之间")
  else if ¬ valid_extreme_methods.contains p.extreme_value_processing then
    (false, "不支持的极值处理方法")
  else if p.start_date = "" then
    (false, "缺少开始日期")
  else if p.end_date = "" then
    (false, "缺少结束日期")
  else if ¬ codeValid then
    (false, "Factor code validation failed, please check your code")
  else (true, "")

/-- The factor document fields touched by `run_factor`. -/
structure FactorDoc where
  user_id : String
  factor_name : String
  params : ParamsD
  status : Int
  current_task_id : Option String
deriving DecidableEq, Repr

/-- A row of the `tasks` collection (the fields relevant here). -/
structure TaskRec where
  task_id : String
  status : Int
deriving DecidableEq, Repr

/-- The store state `run_factor` reads and writes: the `tasks` collection
and the factor document it operates on. -/
structure ServerDB where
  tasks : List TaskRec
  factor : FactorDoc
deriving DecidableEq, Repr

/-- The `ResultData` outcome of `run_factor`. -/
inductive RunResult where
  | success (task_id : String)
  | fail (code msg : String)
deriving DecidableEq, Repr

/-- Embedding of `run_factor` (factor already found; `task_id` freshly generated):
insert the task record with `status = 1` (running), set the factor's
`status = 1` and `current_task_id`, then validate; on validation failure
return `fail "400"`, otherwise hand off to the analysis thread
(`success`). -/
def run_factor (db : ServerDB) (task_id : String) (codeValid : Bool) :
    ServerDB × RunResult :=
  let db1 : ServerDB :=
    { db with tasks := db.tasks ++ [{ task_id := task_id, status := 1 }] }
  let db2 : ServerDB :=
    { db1 with factor :=
        { db1.factor with status := 1, current_task_id := some task_id } }
  let v := validate_factor_params db.factor.params codeValid
  if v.1 = false then (db2, RunResult.fail "400" v.2)
  else (db2, RunResult.success task_id)

/-- Valid parameters except for `adjustment_cycle = 7`. -/
def badCycleParams : ParamsD :=
  { start_date := "2024-01-01", end_date := "2024-06-30",
    adjustment_cycle := 7, stock_pool := "000300",
    factor_direction := false, group_number := 5, include_st := false,
    extreme_value_processing := "中位数" }

/-- A store holding one idle factor whose params carry the enum violation
`adjustment_cycle = 7`, and an empty `tasks` collection. -/
def dbBadCycle : ServerDB :=
  { tasks := [],
    factor := { user_id := "u1", factor_name := "f1",
                params := badCycleParams, status := 0,
                current_task_id := none } }

/-- Counterexample to C1 as stated: with `adjustment_cycle = 7` the call
does return a typed validation error (`fail "400"`), but a task record
*has* been inserted into the `tasks` collection and the factor's `status`
and `current_task_id` *have* been changed. -/
theorem run_factor_validation_counterexample :
    (run_factor dbBadCycle "task1" true).2 =
      RunResult.fail "400" "不支持的调仓周期" ∧
    (run_factor dbBadCycle "task1" true).1.tasks ≠ dbBadCycle.tasks ∧
    (run_factor dbBadCycle "task1" true).1.factor.status ≠
      dbBadCycle.factor.status ∧
    (run_factor dbBadCycle "task1" true).1.factor.current_task_id ≠
      dbBadCycle.factor.current_task_id := by
  refine ⟨by decide, by decide, by decide, by decide⟩

/-- C1 (amended): for every `run_factor` call whose parameters or code
fail validation, the call returns the typed validation error
`fail "400" error_msg` — but only after the task record (`status` running)
has been inserted into `tasks` and the factor's `status` and
`current_task_id` have been set to the new task; none of these writes is
rolled back. -/
theorem run_factor_validation_failure (db : ServerDB) (task_id : String)
    (codeValid : Bool)
    (h : (validate_factor_params db.factor.params codeValid).1 = false) :
    (run_factor db task_id codeValid).2 =
      RunResult.fail "400"
        (validate_factor_params db.factor.params codeValid).2 ∧
    (run_factor db task_id codeValid).1.tasks =
      db.tasks ++ [{ task_id := task_id, status := 1 }] ∧
    (run_factor db task_id codeValid).1.factor.status = 1 ∧
    (run_factor db task_id codeValid).1.factor.current_task_id =
      some task_id := by
  simp [run_factor, h]

/-- Witness for `run_factor_validation_failure`: the `adjustment_cycle = 7`
store. -/
theorem run_factor_validation_failure_witness :
    (run_factor dbBadCycle "task1" true).2 =
      RunResult.fail "400"
        (validate_factor_params dbBadCycle.factor.params true).2 ∧
    (run_factor dbBadCycle "task1" true).1.tasks =
      dbBadCycle.tasks ++ [{ task_id := "task1", status := 1 }] ∧
    (run_factor dbBadCycle "task1" true).1.factor.status = 1 ∧
    (run_factor dbBadCycle "task1" true).1.factor.current_task_id =
      some "task1" :=
  run_factor_validation_failure dbBadCycle "task1" true (by decide)

/-! ## `create_factor` / `update_factor` / `check_factor_exists`
(user_factor_service.py, lines 101-129, 423-447, 530-566) -/

/-- A `user_factors` document: Mongo `_id` (as an ordinal) plus the
`(user_id, factor_name)` key. -/
structure UFDoc where
  oid : Nat
  user_id : String
  factor_name : String
deriving DecidableEq, Repr

/-- Embedding of `check_factor_exists(user_id, factor_name, exclude_id)`: a
`mongo_find_one` on `{"user_id": .., "factor_name": .., ["_id": {"$ne":
exclude}]}` coerced to a boolean. -/
def check_factor_exists (db : List UFDoc) (user name : String)
    (exclude : Option Nat := none) : Bool :=
  db.any (fun d =>
    decide (d.user_id = user) && decide (d.factor_name = name) &&
    (match exclude with
     | none => true
     | some i => decide (d.oid ≠ i)))

/-- CRUD outcome (the `ResultData` code). -/
inductive CrudResult where
  | ok | conflict409 | notFound404
deriving DecidableEq, Repr

/-- Embedding of `create_factor`: reject with 409 if a factor with the same
`(user_id, factor_name)` exists, otherwise insert the new document. -/
def create_factor (db : List UFDoc) (newOid : Nat) (user name : String) :
    List UFDoc × CrudResult :=
  if check_factor_exists db user name then (db, CrudResult.conflict409)
  else (db ++ [{ oid := newOid, user_id := user, factor_name := name }],
        CrudResult.ok)

/-- Embedding of `update_factor`: 404 if the id is absent; 409 if another factor (the
id excluded) already carries `(user_id, factor_name)`; otherwise replace
the document. -/
def update_factor (db : List UFDoc) (fid : Nat) (user name : String) :
    List UFDoc × CrudResult :=
  if ¬ db.any (fun d => decide (d.oid = fid)) then (db, CrudResult.notFound404)
  else if check_factor_exists db user name (some fid) then
    (db, CrudResult.conflict409)
  else
    (db.map (fun d =>
       if d.oid = fid then { d with user_id := user, factor_name := name }
       else d),
     CrudResult.ok)

/-- Uniqueness of `(user_id, factor_name)` across `user_factors`. -/
def UniqueNames (db : List UFDoc) : Prop :=
  db.Pairwise (fun a b => ¬ (a.user_id = b.user_id ∧ a.factor_name = b.factor_name))

/-- Distinctness of Mongo `_id`s (guaranteed by the store). -/
def NodupOids (db : List UFDoc) : Prop := (db.map (fun d => d.oid)).Nodup

theorem check_factor_exists_false {db : List UFDoc} {user name : String}
    (h : check_factor_exists db user name = false) :
    ∀ d ∈ db, ¬ (d.user_id = user ∧ d.factor_name = name) := by
  intro d hd hdu
  have : check_factor_exists db user name = true := by
    unfold check_factor_exists
    rw [List.any_eq_true]
    exact ⟨d, hd, by simp [hdu.1, hdu.2]⟩
  rw [h] at this
  exact absurd this (by simp)

theorem check_factor_exists_exclude_false {db : List UFDoc}
    {user name : String} {fid : Nat}
    (h : check_factor_exists db user name (some fid) = false) :
    ∀ d ∈ db, d.user_id = user → d.factor_name = name → d.oid = fid := by
  intro d hd hu hn
  by_contra hoid
  have : check_factor_exists db user name (some fid) = true := by
    unfold check_factor_exists
    rw [List.any_eq_true]
    exact ⟨d, hd, by simp [hu, hn, hoid]⟩
  rw [h] at this
  exact absurd this (by simp)

/-- C8: `create_factor` rejects a duplicate `(user_id, factor_name)` with
a 409-equivalent and inserts nothing; both `create_factor` and
`update_factor` (which rejects renames colliding with another factor)
preserve the uniqueness of `(user_id, factor_name)` across
`user_factors`. -/
theorem factor_name_uniqueness (db : List UFDoc) (newOid fid : Nat)
    (user name : String) (hu : UniqueNames db) (hoid : NodupOids db) :
    (check_factor_exists db user name = true →
      create_factor db newOid user name = (db, CrudResult.conflict409)) ∧
    (check_factor_exists db user name (some fid) = true →
      db.any (fun d => decide (d.oid = fid)) = true →
      update_factor db fid user name = (db, CrudResult.conflict409)) ∧
    UniqueNames (create_factor db newOid user name).1 ∧
    UniqueNames (update_factor db fid user name).1 := by
  refine ⟨?_, ?_, ?_, ?_⟩
  · intro hdup
    simp [create_factor, hdup]
  · intro hdup hfound
    simp [update_factor, hfound, hdup]
  · by_cases hdup : check_factor_exists db user name = true
    · simpa [create_factor, hdup] using hu
    · rw [Bool.not_eq_true] at hdup
      have hnone := check_factor_exists_false hdup
      simp only [create_factor, hdup, Bool.false_eq_true, if_false]
      unfold UniqueNames
      rw [List.pairwise_append]
      refine ⟨hu, by simp, ?_⟩
      intro a ha b hb
      simp only [List.mem_singleton] at hb
      subst hb
      exact fun hab => hnone a ha hab
  · by_cases hfound : db.any (fun d => decide (d.oid = fid)) = true
    · by_cases hdup : check_factor_exists db user name (some fid) = true
      · simpa [update_factor, hfound, hdup] using hu
      · rw [Bool.not_eq_true] at hdup
        have hexc := check_factor_exists_exclude_false hdup
        simp only [update_factor, hfound, not_true, if_false, hdup,
          Bool.false_eq_true]
        unfold UniqueNames
        rw [List.pairwise_map]
        have hoidp : db.Pairwise (fun a b => a.oid ≠ b.oid) :=
          (List.pairwise_map).mp hoid
        have hcomb := hu.and hoidp
        refine hcomb.imp_of_mem ?_
        intro a b ha hb hab
        obtain ⟨hnab, hab2⟩ := hab
        by_cases haf : a.oid = fid
        · have hbf : ¬ b.oid = fid := fun hbf => hab2 (haf.trans hbf.symm)
          simp only [if_pos haf, if_neg hbf]
          intro hcol
          exact hbf (hexc b hb hcol.1.symm hcol.2.symm)
        · by_cases hbf : b.oid = fid
          · simp only [if_neg haf, if_pos hbf]
            intro hcol
            exact haf (hexc a ha hcol.1 hcol.2)
          · simp only [if_neg haf, if_neg hbf]
            exact hnab
    · simpa [update_factor, hfound] using hu

/-- Witness for `factor_name_uniqueness`: a two-document store where a
duplicate create and a colliding rename are both rejected with 409. -/
theorem factor_name_uniqueness_witness :
    create_factor
        [⟨1, "u1", "alpha"⟩, ⟨2, "u1", "beta"⟩] 3 "u1" "alpha" =
      ([⟨1, "u1", "alpha"⟩, ⟨2, "u1", "beta"⟩], CrudResult.conflict409) ∧
    update_factor [⟨1, "u1", "alpha"⟩, ⟨2, "u1", "beta"⟩] 2 "u1" "alpha" =
      ([⟨1, "u1", "alpha"⟩, ⟨2, "u1", "beta"⟩], CrudResult.conflict409) := by
  have h := factor_name_uniqueness
      [⟨1, "u1", "alpha"⟩, ⟨2, "u1", "beta"⟩] 3 2 "u1" "alpha"
      (by unfold UniqueNames; decide) (by unfold NodupOids; decide)
  exact ⟨h.1 (by decide), h.2.1 (by decide) (by decide)⟩

/-! ## `get_task_logs` (user_factor_service.py, lines 1073-1117)

The query is `{"task_id": task_id}` plus, when `last_log_id` is passed,
`{"_id": {"$gt": ObjectId(last_log_id)}}`; results are sorted by
`timestamp` ascending and the `_id` of the last returned document is
echoed (or `None` when nothing matched).  Mongo `_id`s are modelled as
`Nat` ordinals.  Entries written by the log flusher always carry
`message`, `level` and `timestamp`, so the per-document field check of
lines 1100-1105 never drops a row here. -/

/-- A document of `factor_analysis_stage_logs`: its storage ordinal
(`_id`), owning task, and payload. -/
structure LogDoc where
  oid : Nat
  task_id : String
  message : String
  level : String
  timestamp : Nat
deriving DecidableEq, Repr

/-- Comparison used by `sort=[("timestamp", 1)]`. -/
def tsLeB (a b : LogDoc) : Bool := decide (a.timestamp ≤ b.timestamp)

/-- The Mongo query of `get_task_logs`: task match plus the optional
strict `_id` lower bound. -/
def logQuery (task : String) (last : Option Nat) (d : LogDoc) : Bool :=
  decide (d.task_id = task) &&
    (match last with
     | some l => decide (l < d.oid)
     | none => true)

/-- Embedding of `get_task_logs(task_id, last_log_id)`: filter, sort by timestamp,
return the rows and the `_id` of the last one. -/
def get_task_logs (store : List LogDoc) (task : String) (last : Option Nat) :
    List LogDoc × Option Nat :=
  let logs := (store.filter (logQuery task last)).mergeSort tsLeB
  (logs, logs.getLast?.map (fun d => d.oid))

/-- Well-formedness of the persisted stream: the append-only flusher
assigns strictly increasing `_id`s, and enqueue timestamps are
non-decreasing along insertion order. -/
def WFLog (store : List LogDoc) : Prop :=
  store.Pairwise (fun a b => a.oid < b.oid ∧ a.timestamp ≤ b.timestamp)

theorem tsLeB_trans (a b c : LogDoc) :
    tsLeB a b → tsLeB b c → tsLeB a c := by
  simp only [tsLeB, decide_eq_true_eq]
  omega

theorem tsLeB_total (a b : LogDoc) : tsLeB a b || tsLeB b a := by
  simp only [tsLeB, Bool.or_eq_true, decide_eq_true_eq]
  omega

/-- Under well-formedness the filtered rows are already timestamp-sorted,
so the sort is the identity. -/
theorem filter_mergeSort_eq {store : List LogDoc} (p : LogDoc → Bool)
    (h : WFLog store) :
    (store.filter p).mergeSort tsLeB = store.filter p := by
  apply List.mergeSort_of_sorted
  have hf := h.filter p
  exact hf.imp (fun hab => by
    simp only [tsLeB, decide_eq_true_eq]
    exact hab.2)

theorem pairwise_getLast_max {α : Type} {R : α → α → Prop} :
    ∀ {l : List α} {x : α}, l.Pairwise R → l.getLast? = some x →
      ∀ d ∈ l, d = x ∨ R d x := by
  intro l
  induction l with
  | nil => simp
  | cons a rest ih =>
    intro x hp hl d hd
    cases rest with
    | nil =>
      simp only [List.getLast?_singleton, Option.some.injEq] at hl
      subst hl
      simp only [List.mem_singleton] at hd
      exact Or.inl hd
    | cons b rest' =>
      rw [List.getLast?_cons_cons] at hl
      rcases List.mem_cons.mp hd with hd | hd
      · subst hd
        have hx : x ∈ b :: rest' := List.mem_of_getLast?_eq_some hl
        exact Or.inr ((List.pairwise_cons.mp hp).1 x hx)
      · exact ih (List.pairwise_cons.mp hp).2 hl d hd

/-- C5: under the flusher's well-formedness, `get_task_logs` returns
exactly the task's entries with storage ordinal strictly greater than the
passed one, ordered by timestamp, and echoes the maximum ordinal of the
returned rows; and a full read followed by an incremental read from the
echoed ordinal over the grown stream concatenates to a single full read
of the grown stream. -/
theorem get_task_logs_spec (store : List LogDoc) (task : String)
    (l₀ : Nat) (h : WFLog store) :
    (∀ d, d ∈ (get_task_logs store task (some l₀)).1 ↔
      d ∈ store ∧ d.task_id = task ∧ l₀ < d.oid) ∧
    (∀ last, (get_task_logs store task last).1.Pairwise
      (fun a b => a.timestamp ≤ b.timestamp)) ∧
    (∀ last m, (get_task_logs store task last).2 = some m →
      ∀ d ∈ (get_task_logs store task last).1, d.oid ≤ m) ∧
    (∀ s₂, WFLog (store ++ s₂) →
      (get_task_logs store task none).1 ++
        (get_task_logs (store ++ s₂) task
          ((get_task_logs store task none).2)).1 =
      (get_task_logs (store ++ s₂) task none).1) := by
  refine ⟨?_, ?_, ?_, ?_⟩
  · intro d
    simp [get_task_logs, List.mem_mergeSort, List.mem_filter, logQuery,
      and_assoc]
  · intro last
    have hs := List.sorted_mergeSort tsLeB_trans tsLeB_total
      (store.filter (logQuery task last))
    exact hs.imp (fun hab => by
      simpa only [tsLeB, decide_eq_true_eq] using hab)
  · intro last m hm d hd
    simp only [get_task_logs, filter_mergeSort_eq _ h] at hm hd
    obtain ⟨x, hx, hxm⟩ := Option.map_eq_some'.mp hm
    have hp : (store.filter (logQuery task last)).Pairwise
        (fun a b => a.oid < b.oid) :=
      (h.filter _).imp (fun hab => hab.1)
    rcases pairwise_getLast_max hp hx d hd with rfl | hlt
    · omega
    · omega
  · intro s₂ hw2
    have h1 : WFLog store := (List.pairwise_append.mp hw2).1
    have hcross : ∀ a ∈ store, ∀ b ∈ s₂, a.oid < b.oid := by
      intro a ha b hb
      exact ((List.pairwise_append.mp hw2).2.2 a ha b hb).1
    simp only [get_task_logs, filter_mergeSort_eq _ h1,
      filter_mergeSort_eq _ hw2]
    cases hA : (store.filter (logQuery task none)).getLast? with
    | none =>
      have hAnil : store.filter (logQuery task none) = [] := by
        cases hAcase : store.filter (logQuery task none) with
        | nil => rfl
        | cons y ys =>
          rw [hAcase] at hA
          simp [List.getLast?_eq_getLast] at hA
      simp [hAnil]
    | some x =>
      have hxmem : x ∈ store.filter (logQuery task none) :=
        List.mem_of_getLast?_eq_some hA
      have hxstore : x ∈ store := (List.mem_filter.mp hxmem).1
      have hpA : (store.filter (logQuery task none)).Pairwise
          (fun a b => a.oid < b.oid) :=
        (h1.filter _).imp (fun hab => hab.1)
      have hmax : ∀ d ∈ store.filter (logQuery task none), d.oid ≤ x.oid := by
        intro d hd
        rcases pairwise_getLast_max hpA hA d hd with rfl | hlt
        · omega
        · omega
      simp only [hA, Option.map_some']
      rw [List.filter_append]
      have hstorenil : store.filter (logQuery task (some x.oid)) = [] := by
        rw [List.filter_eq_nil_iff]
        intro d hd hq
        simp only [logQuery, Bool.and_eq_true, decide_eq_true_eq] at hq
        have hdmem : d ∈ store.filter (logQuery task none) := by
          rw [List.mem_filter]
          exact ⟨hd, by simp [logQuery, hq.1]⟩
        have := hmax d hdmem
        omega
      have hs2eq : s₂.filter (logQuery task (some x.oid)) =
          s₂.filter (logQuery task none) := by
        apply List.filter_congr
        intro d hd
        have hxd : x.oid < d.oid := hcross x hxstore d hd
        simp [logQuery, hxd]
      rw [hstorenil, hs2eq, List.filter_append]
      simp

/-- Concrete persisted stream for the witness: three entries of task `t1`
and one of task `t2`, then two later entries of `t1`. -/
def logStore1 : List LogDoc :=
  [⟨1, "t1", "a", "INFO", 10⟩, ⟨2, "t2", "b", "INFO", 11⟩,
   ⟨3, "t1", "c", "DEBUG", 12⟩]

/-- Entries appended after the first read. -/
def logStore2 : List LogDoc :=
  [⟨4, "t1", "d", "INFO", 13⟩, ⟨5, "t1", "e", "ERROR", 14⟩]

/-- Witness for `get_task_logs_spec`: on the concrete stream, a full read
of `t1` followed by an incremental read from the echoed ordinal equals a
single full read of the grown stream, and the sort is by timestamp. -/
theorem get_task_logs_spec_witness :
    ((get_task_logs logStore1 "t1" none).1 ++
      (get_task_logs (logStore1 ++ logStore2) "t1"
        ((get_task_logs logStore1 "t1" none).2)).1 =
      (get_task_logs (logStore1 ++ logStore2) "t1" none).1) ∧
    (get_task_logs logStore1 "t1" (some 0)).1.Pairwise
      (fun a b => a.timestamp ≤ b.timestamp) := by
  have h := get_task_logs_spec logStore1 "t1" 0
    (by unfold WFLog logStore1; decide)
  refine ⟨h.2.2.2 logStore2 (by unfold WFLog logStore1 logStore2; decide),
    h.2.1 (some 0)⟩

/-! ## `get_user_factor_list` (user_factor_service.py, lines 296-359)

Each factor is rendered to a `UserFactorListItem` whose metric fields
default to `"0.0%"` / `0.0` and are overwritten from the factor's current
result bundle when present (`one_group_data` for the ratio fields,
`factor_data_analysis` rows `IC_mean` / `IC_IR` for IC and IR).  The page
is then sorted with `result_list.sort(key=lambda x: getattr(x, sort_field),
reverse=...)` — Python's stable sort comparing `str` fields
lexicographically by code point and numeric fields numerically.  The
stable sort is modelled by `List.mergeSort` (stable, like Timsort);
`reverse=True` is the stable descending sort, i.e. `mergeSort` under the
flipped comparator. -/

/-- Helper: `mergeSort` on a two-element list. -/
theorem mergeSort_pair {α : Type} (le : α → α → Bool)
    (trans : ∀ a b c, le a b → le b c → le a c)
    (total : ∀ a b, le a b || le b a) (a b : α) :
    List.mergeSort [a, b] le = if le a b then [a, b] else [b, a] := by
  obtain ⟨l₁, l₂, h₁, h₂, h₃⟩ := List.mergeSort_cons trans total a [b]
  have hb : List.mergeSort [b] le = [b] := List.mergeSort_of_sorted (by simp)
  rw [hb] at h₂
  cases l₁ with
  | nil =>
    simp only [List.nil_append] at h₁ h₂
    subst h₂
    by_cases hab : le a b = true
    · simp [hab, h₁]
    · have hs := List.sorted_mergeSort trans total [a, b]
      rw [h₁] at hs
      have := (List.pairwise_cons.mp hs).1 b (by simp)
      exact absurd this hab
  | cons c l₁' =>
    have hc : c = b ∧ l₁' = [] ∧ l₂ = [] := by
      cases l₁' with
      | nil =>
        simp only [List.cons_append, List.nil_append, List.cons.injEq] at h₂
        exact ⟨h₂.1.symm, rfl, h₂.2.symm⟩
      | cons d l₁'' =>
        simp only [List.cons_append, List.cons.injEq] at h₂
        exact absurd h₂.2 (by simp)
    have hnab : le a b = false := by
      have hm := h₃ c (by simp)
      rw [hc.1] at hm
      simpa using hm
    rw [hc.1, hc.2.1, hc.2.2] at h₁
    simp only [List.cons_append, List.nil_append] at h₁
    rw [h₁, if_neg (by simp [hnab])]

/-- Helper: `mergeSort` is stable — the subsequence of elements
key-equivalent to any fixed element is preserved. -/
theorem mergeSort_filter_keyEq {α : Type} (le : α → α → Bool)
    (trans : ∀ a b c, le a b → le b c → le a c)
    (total : ∀ a b, le a b || le b a) (l : List α) (x : α) :
    (List.mergeSort l le).filter (fun y => le x y && le y x) =
      l.filter (fun y => le x y && le y x) := by
  set p : α → Bool := fun y => le x y && le y x with hp
  have hmemp : ∀ a ∈ l.filter p, le x a ∧ le a x := by
    intro a ha
    have := (List.mem_filter.mp ha).2
    rw [hp] at this
    simpa using this
  have hpair : (l.filter p).Pairwise (fun a b => le a b = true) :=
    List.pairwise_of_forall_mem_list (fun a ha b hb =>
      trans a x b (hmemp a ha).2 (hmemp b hb).1)
  have h1 : List.Sublist (l.filter p) (List.mergeSort l le) :=
    List.sublist_mergeSort trans total hpair (List.filter_sublist l)
  have h2 : List.Sublist ((l.filter p).filter p)
      ((List.mergeSort l le).filter p) :=
    h1.filter p
  rw [List.filter_eq_self.mpr (fun a ha => (List.mem_filter.mp ha).2)] at h2
  have h3 : ((List.mergeSort l le).filter p).length = (l.filter p).length :=
    ((List.mergeSort_perm l le).filter p).length_eq
  exact (h2.eq_of_length h3.symm).symm

/-- The list item built for each factor (lines 300-350); `name` stands for
the remaining non-metric fields. -/
structure UserFactorListItem where
  name : String
  return_ratio : String
  annualized_ratio : String
  sharpe_ratio : ℚ
  maximum_drawdown : String
  ic : ℚ
  ir : ℚ
deriving DecidableEq, Repr

/-- The `one_group_data` summary of a result bundle. -/
structure OneGroupData where
  return_ratio : String
  annualized_ratio : String
  sharpe_ratio : ℚ
  maximum_drawdown : String
deriving DecidableEq, Repr

/-- The parts of a `factor_analysis_results` document that
`get_user_factor_list` reads: the optional `one_group_data` summary and
the optional `factor_data_analysis` rows `(指标, value)`. -/
structure AnalysisResult where
  one_group_data : Option OneGroupData
  factor_data_analysis : Option (List (String × ℚ))
deriving DecidableEq, Repr

/-- Build a `UserFactorListItem` from the factor's current bundle (absent
bundle or absent rows leave the zero defaults in place; the `for item in
analysis_result["factor_data_analysis"]` loop lets the last matching row
win). -/
def build_factor_item (name : String) (res : Option AnalysisResult) :
    UserFactorListItem :=
  let base : UserFactorListItem :=
    { name := name, return_ratio := "0.0%", annualized_ratio := "0.0%",
      sharpe_ratio := 0, maximum_drawdown := "0.0%", ic := 0, ir := 0 }
  match res with
  | none => base
  | some r =>
    let it₁ :=
      match r.one_group_data with
      | none => base
      | some g =>
        { base with return_ratio := g.return_ratio,
                    annualized_ratio := g.annualized_ratio,
                    sharpe_ratio := g.sharpe_ratio,
                    maximum_drawdown := g.maximum_drawdown }
    match r.factor_data_analysis with
    | none => it₁
    | some rows =>
      rows.foldl (fun it row =>
        if row.1 = "IC_mean" then { it with ic := row.2 }
        else if row.1 = "IC_IR" then { it with ir := row.2 }
        else it) it₁

/-- The metric sort fields of `valid_sort_fields` (the timestamp fields are
plain strings and not at issue). -/
inductive SortField where
  | return_ratio | sharpe_ratio | maximum_drawdown | ic | ir
deriving DecidableEq, Repr

/-- Comparison of `getattr(x, sort_field)` values: `str` fields compare as
strings (code-point lexicographic), numeric fields numerically. -/
def fieldLe (f : SortField) (a b : UserFactorListItem) : Bool :=
  match f with
  | SortField.return_ratio => decide (a.return_ratio ≤ b.return_ratio)
  | SortField.sharpe_ratio => decide (a.sharpe_ratio ≤ b.sharpe_ratio)
  | SortField.maximum_drawdown => decide (a.maximum_drawdown ≤ b.maximum_drawdown)
  | SortField.ic => decide (a.ic ≤ b.ic)
  | SortField.ir => decide (a.ir ≤ b.ir)

theorem fieldLe_trans (f : SortField) :
    ∀ a b c, fieldLe f a b → fieldLe f b c → fieldLe f a c := by
  intro a b c
  cases f <;>
    · simp only [fieldLe, decide_eq_true_eq]
      exact fun h₁ h₂ => le_trans h₁ h₂

theorem fieldLe_total (f : SortField) :
    ∀ a b, fieldLe f a b || fieldLe f b a := by
  intro a b
  cases f <;>
    · simp only [fieldLe, Bool.or_eq_true, decide_eq_true_eq]
      exact le_total _ _

/-- Embedding of `result_list.sort(key=lambda x: getattr(x, sort_field),
reverse=(sort_order == "desc"))`. -/
def sortItems (f : SortField) (desc : Bool) (items : List UserFactorListItem) :
    List UserFactorListItem :=
  match desc with
  | true => items.mergeSort (fun a b => fieldLe f b a)
  | false => items.mergeSort (fieldLe f)

/-- Item with a given `return_ratio` string. -/
def rrItem (nm rr : String) : UserFactorListItem :=
  { name := nm, return_ratio := rr, annualized_ratio := "0.0%",
    sharpe_ratio := 0, maximum_drawdown := "0.0%", ic := 0, ir := 0 }

/-- Item with a given `sharpe_ratio` value. -/
def spItem (nm : String) (sr : ℚ) : UserFactorListItem :=
  { name := nm, return_ratio := "0.0%", annualized_ratio := "0.0%",
    sharpe_ratio := sr, maximum_drawdown := "0.0%", ic := 0, ir := 0 }

/-- C10: in `get_user_factor_list`, (a) sorting by `return_ratio` (and
`maximum_drawdown`) compares the percent strings lexicographically, so
ascending order places `"10.0%"` before `"9.0%"` although 9 < 10
numerically; (b) `sharpe_ratio` (and IC/IR) sort numerically; (c) a factor
without a bundle gets the defaults `"0.0%"` and `0.0`; (d) the sort is
stable within equal keys (the subsequence of key-equal items is
preserved), for both sort orders. -/
theorem get_user_factor_list_sorting :
    (sortItems SortField.return_ratio false
        [rrItem "A" "9.0%", rrItem "B" "10.0%"] =
      [rrItem "B" "10.0%", rrItem "A" "9.0%"] ∧
      ("10.0%" : String) < "9.0%" ∧ (9 : ℚ) < 10) ∧
    (sortItems SortField.sharpe_ratio false
        [spItem "A" 10, spItem "B" 9] = [spItem "B" 9, spItem "A" 10]) ∧
    (build_factor_item "f" none =
      { name := "f", return_ratio := "0.0%", annualized_ratio := "0.0%",
        sharpe_ratio := 0, maximum_drawdown := "0.0%", ic := 0, ir := 0 }) ∧
    (∀ f desc items x,
      (sortItems f desc items).filter
          (fun y => fieldLe f x y && fieldLe f y x) =
        items.filter (fun y => fieldLe f x y && fieldLe f y x)) := by
  refine ⟨⟨?_, ?_, by norm_num⟩, ?_, rfl, ?_⟩
  · show List.mergeSort [rrItem "A" "9.0%", rrItem "B" "10.0%"]
      (fieldLe SortField.return_ratio) = _
    rw [mergeSort_pair _ (fieldLe_trans _) (fieldLe_total _)]
    have hlt : fieldLe SortField.return_ratio
        (rrItem "A" "9.0%") (rrItem "B" "10.0%") = false := by
      simp only [fieldLe, rrItem, decide_eq_false_iff_not, not_le]
      rw [String.lt_iff_toList_lt]
      decide
    simp [hlt]
  · rw [String.lt_iff_toList_lt]
    decide
  · show List.mergeSort [spItem "A" 10, spItem "B" 9]
      (fieldLe SortField.sharpe_ratio) = _
    rw [mergeSort_pair _ (fieldLe_trans _) (fieldLe_total _)]
    have hlt : fieldLe SortField.sharpe_ratio
        (spItem "A" 10) (spItem "B" 9) = false := by decide
    simp [hlt]
  · intro f desc items x
    cases desc with
    | false =>
      show (items.mergeSort (fieldLe f)).filter _ = _
      exact mergeSort_filter_keyEq (fieldLe f) (fieldLe_trans f)
        (fieldLe_total f) items x
    | true =>
      show (items.mergeSort (fun a b => fieldLe f b a)).filter _ = _
      have h := mergeSort_filter_keyEq (fun a b => fieldLe f b a)
        (fun a b c h₁ h₂ => by
          show fieldLe f c a = true
          exact fieldLe_trans f c b a h₂ h₁)
        (fun a b => by
          show (fieldLe f b a || fieldLe f a b) = true
          rw [Bool.or_comm]
          exact fieldLe_total f a b)
        items x
      calc (items.mergeSort (fun a b => fieldLe f b a)).filter
              (fun y => fieldLe f x y && fieldLe f y x)
          = (items.mergeSort (fun a b => fieldLe f b a)).filter
              (fun y => fieldLe f y x && fieldLe f x y) := by
            apply List.filter_congr
            intro a _
            rw [Bool.and_comm]
        _ = items.filter (fun y => fieldLe f y x && fieldLe f x y) := h
        _ = items.filter (fun y => fieldLe f x y && fieldLe f y x) := by
            apply List.filter_congr
            intro a _
            rw [Bool.and_comm]

/-! ## Cross-sectional extreme-value trimming (factor_analysis.py, lines
279-297)

The dispatch in `factor_analysis` is, verbatim:

```
if params.extreme_value_processing == "标准差" or params.extreme_value_processing == "std":
    df_factor = ... apply(lambda x: ext_out_3std_list(x, factor_list))
else:  # Default to median method
    df_factor = ... apply(lambda x: ext_out_3std_list(x, factor_list))  # "Median extreme value processing"
```

— both branches call `ext_out_3std_list`.  A date cross-section of the
factor column is a `List ℚ`; the clip bounds live in `ℝ` because the
3-sigma bound involves a square root. -/

/-- Arithmetic mean of a cross-section. -/
def listMean (xs : List ℚ) : ℚ := xs.sum / (xs.length : ℚ)

/-- Sample variance (`pandas .std()` uses `ddof=1`). -/
def sampleVar (xs : List ℚ) : ℚ :=
  ((xs.map (fun x => (x - listMean xs) ^ 2)).sum) / ((xs.length : ℚ) - 1)

/-- Sample standard deviation. -/
noncomputable def sampleStd (xs : List ℚ) : ℝ := Real.sqrt ((sampleVar xs : ℚ) : ℝ)

/-- Clip a value into `[lo, hi]`. -/
def clipR (lo hi x : ℝ) : ℝ := min hi (max lo x)

/-- Modelled from the spec: the body of `ext_out_3std_list`
(imported by factor_analysis.py from `panda_factor.analysis.factor_func`,
a module not under src/) — 3-sigma trimming, clipping each value of the
cross-section into `mean ± 3·std` (§4.3 outlier trimming, option (a)). -/
noncomputable def ext_out_3std_list (xs : List ℚ) : List ℝ :=
  xs.map (fun x =>
    clipR ((listMean xs : ℝ) - 3 * sampleStd xs)
          ((listMean xs : ℝ) + 3 * sampleStd xs) ((x : ℚ) : ℝ))

/-- Median of a cross-section (sort; middle element for odd length,
mean of the two middle elements for even length). -/
def medianQ (xs : List ℚ) : ℚ :=
  if xs.length % 2 = 1 then
    (xs.insertionSort (fun a b => a ≤ b)).getD (xs.length / 2) 0
  else
    ((xs.insertionSort (fun a b => a ≤ b)).getD (xs.length / 2 - 1) 0 +
      (xs.insertionSort (fun a b => a ≤ b)).getD (xs.length / 2) 0) / 2

/-- Modelled from the spec: the body of `ext_out_mad` (also from the
missing `factor_func` module) — MAD trimming: with `m` the median and `d`
the median absolute deviation, clip each value into
`m ± 3·1.4826·d` (§4.3 outlier trimming, option (b)). -/
noncomputable def ext_out_mad (xs : List ℚ) : List ℝ :=
  xs.map (fun x =>
    clipR ((medianQ xs : ℝ) -
             3 * (1.4826 : ℝ) * (medianQ (xs.map (fun y => |y - medianQ xs|)) : ℝ))
          ((medianQ xs : ℝ) +
             3 * (1.4826 : ℝ) * (medianQ (xs.map (fun y => |y - medianQ xs|)) : ℝ))
          ((x : ℚ) : ℝ))

/-- The extreme-value dispatch of `factor_analysis` (lines 286-293): both
the `"标准差"/"std"` branch and the `else` (median) branch apply
`ext_out_3std_list` to every date cross-section. -/
noncomputable def extreme_value_step (method : String) (xs : List ℚ) : List ℝ :=
  if method = "标准差" ∨ method = "std" then ext_out_3std_list xs
  else ext_out_3std_list xs

/-- C2 (code evaluated at the failing input): on the cross-section
`[0, 0, 0, 8]` with the user selection `median`, the code applies the
3-sigma rule (mean 2, sample std 4, bounds `[-10, 14]`, so the value 8 is
kept), whereas the selected MAD rule (median 0, MAD 0, bounds `[0, 0]`)
clips 8 to 0 — the user's selection does not determine the trimming rule
applied. -/
theorem extreme_value_median_mismatch :
    extreme_value_step "median" [0, 0, 0, 8] = ext_out_3std_list [0, 0, 0, 8] ∧
    (extreme_value_step "median" [0, 0, 0, 8]).getD 3 0 = 8 ∧
    (ext_out_mad [0, 0, 0, 8]).getD 3 0 = 0 ∧
    extreme_value_step "median" [0, 0, 0, 8] ≠ ext_out_mad [0, 0, 0, 8] := by
  have hbranch : extreme_value_step "median" [0, 0, 0, 8] =
      ext_out_3std_list [0, 0, 0, 8] := by
    simp [extreme_value_step]
  have hmean : listMean [0, 0, 0, 8] = 2 := by
    norm_num [listMean]
  have hvar : sampleVar [0, 0, 0, 8] = 16 := by
    norm_num [sampleVar, hmean]
  have hstd : sampleStd [0, 0, 0, 8] = 4 := by
    unfold sampleStd
    rw [hvar]
    rw [show (((16 : ℚ) : ℝ)) = (4 : ℝ) ^ 2 by norm_num]
    exact Real.sqrt_sq (by norm_num)
  have h3std : (ext_out_3std_list [0, 0, 0, 8]).getD 3 0 = 8 := by
    have hform : (ext_out_3std_list [0, 0, 0, 8]).getD 3 0 =
        clipR ((listMean [0, 0, 0, 8] : ℝ) - 3 * sampleStd [0, 0, 0, 8])
              ((listMean [0, 0, 0, 8] : ℝ) + 3 * sampleStd [0, 0, 0, 8])
              (((8 : ℚ) : ℝ)) := rfl
    rw [hform, hmean, hstd, clipR]
    rw [show ((2 : ℚ) : ℝ) - 3 * 4 = (-10 : ℝ) by push_cast; norm_num]
    rw [show ((2 : ℚ) : ℝ) + 3 * 4 = (14 : ℝ) by push_cast; norm_num]
    rw [show ((8 : ℚ) : ℝ) = (8 : ℝ) by norm_num]
    rw [max_eq_right (by norm_num : (-10 : ℝ) ≤ 8)]
    rw [min_eq_right (by norm_num : (8 : ℝ) ≤ 14)]
  have hsorted : List.insertionSort (fun a b => a ≤ b) ([0, 0, 0, 8] : List ℚ) =
      [0, 0, 0, 8] := by
    apply List.Sorted.insertionSort_eq
    norm_num [List.sorted_cons]
  have hm : medianQ [0, 0, 0, 8] = 0 := by
    simp only [medianQ, hsorted]
    norm_num [List.getD]
  have hd : medianQ ([0, 0, 0, 8].map (fun y => |y - medianQ [0, 0, 0, 8]|)) = 0 := by
    simp only [hm]
    have hmap : List.map (fun y => |y - (0 : ℚ)|) ([0, 0, 0, 8] : List ℚ) =
        [0, 0, 0, 8] := by
      norm_num
    rw [hmap, hm]
  have hmad : (ext_out_mad [0, 0, 0, 8]).getD 3 0 = 0 := by
    have hform : (ext_out_mad [0, 0, 0, 8]).getD 3 0 =
        clipR ((medianQ [0, 0, 0, 8] : ℝ) -
                 3 * (1.4826 : ℝ) *
                   (medianQ ([0, 0, 0, 8].map
                     (fun y => |y - medianQ [0, 0, 0, 8]|)) : ℝ))
              ((medianQ [0, 0, 0, 8] : ℝ) +
                 3 * (1.4826 : ℝ) *
                   (medianQ ([0, 0, 0, 8].map
                     (fun y => |y - medianQ [0, 0, 0, 8]|)) : ℝ))
              (((8 : ℚ) : ℝ)) := rfl
    rw [hform, hd, hm, clipR]
    rw [show ((0 : ℚ) : ℝ) - 3 * (1.4826 : ℝ) * ((0 : ℚ) : ℝ) = (0 : ℝ) by
      push_cast; ring]
    rw [show ((0 : ℚ) : ℝ) + 3 * (1.4826 : ℝ) * ((0 : ℚ) : ℝ) = (0 : ℝ) by
      push_cast; ring]
    rw [show ((8 : ℚ) : ℝ) = (8 : ℝ) by norm_num]
    rw [max_eq_right (by norm_num : (0 : ℝ) ≤ 8)]
    rw [min_eq_left (by norm_num : (0 : ℝ) ≤ 8)]
  refine ⟨hbranch, by rw [hbranch]; exact h3std, hmad, ?_⟩
  intro heq
  have h1 := congrArg (fun l => l.getD 3 0) heq
  simp only at h1
  rw [hbranch] at h1
  rw [h3std, hmad] at h1
  norm_num at h1

/-! ## `FactorReader.get_custom_factor` error handling (factor_reader.py,
lines 527-645; `_print_formula_error` lines 202-229; `_print_class_error`
lines 270-297)

On the on-demand compute path the call to
`mf.create_factor_from_formula` / `create_factor_from_class` sits in a
`try:` whose `except:` logs via `_print_formula_error` /
`_print_class_error` and returns `None`.  Python exceptions are modelled
as an error value (`PyErr`) carried by an `Except`; the store lookups are
oracles in `ComputeEnv`. -/

/-- A traceback frame (`traceback.extract_tb` entry): function name, line
number, source line. -/
structure PyFrame where
  name : String
  lineno : Nat
  line : String
deriving DecidableEq, Repr

/-- A Python exception as `_print_*_error` inspects it: a `SyntaxError`
with position info, or any other exception with its traceback. -/
inductive PyErr where
  | syntaxError (msg : String) (lineno offset : Nat) (text : String)
  | runtimeError (msg : String) (tb : List PyFrame)
deriving DecidableEq, Repr

/-- Python's `sub in s` substring test. -/
def strContains (s pat : String) : Bool :=
  (List.range (s.length + 1)).any
    (fun i => pat.toList.isPrefixOf (s.toList.drop i))

/-- Embedding of `FactorReader._print_formula_error`: the list of messages logged at
`error` level (text abbreviated where it only interpolates values). -/
def print_formula_error (e : PyErr) (formula : String) : List String :=
  match e with
  | PyErr.syntaxError msg lineno offset text =>
      ["=== Formula Syntax Error ===",
       "Error in formula: " ++ formula,
       "Error message: " ++ msg,
       "Error occurred at line " ++ toString lineno ++ ", offset " ++
         toString offset,
       "Text: " ++ text]
  | PyErr.runtimeError msg tb =>
      if tb.any (fun f => strContains f.name "eval") then
        ["=== Formula Execution Error ===",
         "Error in formula: " ++ formula,
         "Error message: " ++ msg] ++
        (match tb.reverse.find? (fun f => strContains f.name "eval") with
         | some fr =>
             ["Error occurred at line " ++ toString fr.lineno,
              "In expression: " ++ fr.line]
         | none => [])
      else
        ["=== Formula Setup Error ===",
         "Error in formula setup: " ++ msg]

/-- Embedding of `FactorReader._print_class_error`: messages logged at `error` level;
the calculate frame is the first traceback frame whose function name
contains `calculate`. -/
def print_class_error (e : PyErr) : List String :=
  match e with
  | PyErr.syntaxError msg lineno offset text =>
      ["=== Python Syntax Error ===",
       "Error message: " ++ msg,
       "Error occurred at line " ++ toString lineno ++ ", offset " ++
         toString offset,
       "Text: " ++ text]
  | PyErr.runtimeError msg tb =>
      match tb.find? (fun f => strContains f.name "calculate") with
      | some fr =>
          ["=== Factor Calculation Error ===",
           "Error in factor calculation:",
           "Error message: " ++ msg,
           "Error occurred at line " ++ toString fr.lineno ++
             " in calculate method",
           "In code: " ++ fr.line]
      | none =>
          ["=== Factor Class Error ===",
           "Error in factor class execution: " ++ msg]

/-- The factor definition fields `get_custom_factor` reads from
`user_factors`. -/
structure FactorDefn where
  code_type : String
  code : String
deriving DecidableEq, Repr

/-- Oracles for the store lookups and the factor-engine call made by
`get_custom_factor`: whether the persisted collection
`factor_<name>_<user_id>` exists and what it holds, the factor definition
(if any), the resolved symbol universe, and the outcome of
`create_factor_from_formula` / `create_factor_from_class`. -/
structure ComputeEnv where
  collectionExists : Bool
  persistedRows : List ℚ
  factorDef : Option FactorDefn
  symbols : List String
  formulaResult : Except PyErr (List ℚ)
  classResult : Except PyErr (List ℚ)

/-- Embedding of `FactorReader.get_custom_factor`: fast path over the persisted
collection, otherwise resolve the definition and compute on demand; any
exception raised by the factor engine is logged via the structured error
printers and turned into `None` (the column rename performed on success is
identity here since rows are opaque).  Returns the result and the emitted
error/warning log messages. -/
def get_custom_factor (env : ComputeEnv) : Option (List ℚ) × List String :=
  if env.collectionExists then
    if ¬ env.persistedRows.isEmpty then (some env.persistedRows, [])
    else (none, ["No data found in collection for the specified date range"])
  else
    match env.factorDef with
    | none => (none, ["No data found for the specified parameters"])
    | some fd =>
      if env.symbols.isEmpty then
        (none, ["No valid symbols found matching the criteria"])
      else if fd.code_type = "formula" then
        match env.formulaResult with
        | Except.ok r => (some r, [])
        | Except.error e => (none, print_formula_error e fd.code)
      else if fd.code_type = "python" then
        match env.classResult with
        | Except.ok r => (some r, [])
        | Except.error e => (none, print_class_error e)
      else (none, ["Unknown code type: " ++ fd.code_type])

/-- C7: on the on-demand compute path, a raised computation error is not
propagated: `get_custom_factor` returns `None` ("no data") and emits a
non-empty structured error log — carrying the formula line/offset for a
syntax error, the last `eval` frame position for a formula execution
error, and the first `calculate` frame position for a class calculation
error. -/
theorem get_custom_factor_error_handling (env : ComputeEnv)
    (fd : FactorDefn) (e : PyErr)
    (hcoll : env.collectionExists = false)
    (hdef : env.factorDef = some fd)
    (hsym : env.symbols.isEmpty = false)
    (hfail : (fd.code_type = "formula" ∧ env.formulaResult = Except.error e) ∨
             (fd.code_type = "python" ∧ env.classResult = Except.error e)) :
    (get_custom_factor env).1 = none ∧
    (get_custom_factor env).2 ≠ [] ∧
    (∀ msg lineno offset text, e = PyErr.syntaxError msg lineno offset text →
      ("Error occurred at line " ++ toString lineno ++ ", offset " ++
        toString offset) ∈ (get_custom_factor env).2) ∧
    (∀ msg tb fr, e = PyErr.runtimeError msg tb →
      (fd.code_type = "formula" →
        tb.reverse.find? (fun f => strContains f.name "eval") = some fr →
        ("Error occurred at line " ++ toString fr.lineno) ∈
          (get_custom_factor env).2) ∧
      (fd.code_type = "python" →
        tb.find? (fun f => strContains f.name "calculate") = some fr →
        ("Error occurred at line " ++ toString fr.lineno ++
          " in calculate method") ∈ (get_custom_factor env).2)) := by
  rcases hfail with ⟨hct, herr⟩ | ⟨hct, herr⟩
  · have hout : get_custom_factor env = (none, print_formula_error e fd.code) := by
      simp [get_custom_factor, hcoll, hdef, hsym, hct, herr]
    rw [hout]
    refine ⟨rfl, ?_, ?_, ?_⟩
    · cases e with
      | syntaxError msg lineno offset text => simp [print_formula_error]
      | runtimeError msg tb =>
        by_cases hany : tb.any (fun f => strContains f.name "eval") = true
        · simp [print_formula_error, hany]
        · simp only [Bool.not_eq_true] at hany
          simp [print_formula_error, hany]
    · intro msg lineno offset text hsyn
      subst hsyn
      simp [print_formula_error]
    · intro msg tb fr hrt
      subst hrt
      constructor
      · intro _ hfind
        have hmemf := List.mem_of_find?_eq_some hfind
        have hpf := List.find?_some hfind
        have hany : tb.any (fun f => strContains f.name "eval") = true := by
          rw [List.any_eq_true]
          exact ⟨fr, List.mem_reverse.mp hmemf, hpf⟩
        simp [print_formula_error, hany, hfind]
      · intro hpy
        rw [hct] at hpy
        exact absurd hpy (by decide)
  · have hpy : fd.code_type = "formula" → False := by
      intro hf
      rw [hct] at hf
      exact absurd hf (by decide)
    have hout : get_custom_factor env = (none, print_class_error e) := by
      simp only [get_custom_factor, hcoll, Bool.false_eq_true, if_false, hdef,
        hsym, hct, herr]
      simp
    rw [hout]
    refine ⟨rfl, ?_, ?_, ?_⟩
    · cases e with
      | syntaxError msg lineno offset text => simp [print_class_error]
      | runtimeError msg tb =>
        cases hfind : tb.find? (fun f => strContains f.name "calculate") with
        | none => simp [print_class_error, hfind]
        | some fr => simp [print_class_error, hfind]
    · intro msg lineno offset text hsyn
      subst hsyn
      simp [print_class_error]
    · intro msg tb fr hrt
      subst hrt
      refine ⟨fun hf => (hpy hf).elim, ?_⟩
      intro _ hfind
      simp [print_class_error, hfind]

/-- Concrete environment for the witness: the compute path with a formula
whose evaluation raises a `SyntaxError` at line 1, offset 5. -/
def envSyntaxError : ComputeEnv :=
  { collectionExists := false,
    persistedRows := [],
    factorDef := some { code_type := "formula", code := "close // open" },
    symbols := ["000001.SZ"],
    formulaResult :=
      Except.error (PyErr.syntaxError "invalid syntax" 1 5 "close // open"),
    classResult := Except.ok [] }

/-- Witness for `get_custom_factor_error_handling`: the concrete failing
formula environment yields `None` plus the positioned error log. -/
theorem get_custom_factor_error_handling_witness :
    (get_custom_factor envSyntaxError).1 = none ∧
    ("Error occurred at line " ++ toString 1 ++ ", offset " ++ toString 5) ∈
      (get_custom_factor envSyntaxError).2 := by
  have h := get_custom_factor_error_handling envSyntaxError
    { code_type := "formula", code := "close // open" }
    (PyErr.syntaxError "invalid syntax" 1 5 "close // open")
    rfl rfl rfl (Or.inl ⟨rfl, rfl⟩)
  exact ⟨h.1, h.2.2.1 "invalid syntax" 1 5 "close // open" rfl⟩

end PandaFactor
